import Mathlib

/-!
Verification of `fix_lines.py`, a one-shot line-ending normalizer.

The script iterates over a fixed list of filenames; for each existing file it
reads the raw bytes, applies `content.replace(b'\r\n', b'\n')` and writes the
result back, printing progress lines; a missing file is reported and skipped.

Bytes are modelled as `Nat` values (CR = 13 = 0x0D, LF = 10 = 0x0A), a byte
buffer as `List Nat`, the working directory as a partial map from filenames to
byte contents, and the observable behaviour of a run as a list of effects
(existence checks, reads, writes, console lines).
-/

/-- Embedding of Python's `content.replace(b'\r\n', b'\n')` (fix_lines.py,
line 12): scan the buffer left to right and replace every non-overlapping
occurrence of the two-byte sequence `0x0D 0x0A` with the single byte `0x0A`;
any byte that does not start a match is copied and the scan resumes right
after it. -/
def replaceCRLF : List Nat → List Nat
  | [] => []
  | [b] => [b]
  | b :: b2 :: rest =>
      if b = 13 ∧ b2 = 10 then
        10 :: replaceCRLF rest
      else
        b :: replaceCRLF (b2 :: rest)

/-- Number of (non-overlapping, left-to-right) `0x0D 0x0A` pairs the scan of
`replaceCRLF` replaces. -/
def countCRLF : List Nat → Nat
  | [] => 0
  | [_] => 0
  | b :: b2 :: rest =>
      if b = 13 ∧ b2 = 10 then
        countCRLF rest + 1
      else
        countCRLF (b2 :: rest)

/-- Whether the buffer contains the contiguous two-byte sequence `0x0D 0x0A`. -/
def hasCRLF : List Nat → Bool
  | [] => false
  | [_] => false
  | b :: b2 :: rest => (b == 13 && b2 == 10) || hasCRLF (b2 :: rest)

/-- Whether the buffer contains the contiguous three-byte sequence
`0x0D 0x0D 0x0A`. -/
def hasCRCRLF : List Nat → Bool
  | b :: b2 :: b3 :: rest => (b == 13 && b2 == 13 && b3 == 10) || hasCRCRLF (b2 :: b3 :: rest)
  | _ => false

/-- The fixed list of target filenames (`files`, fix_lines.py line 3). -/
def files : List String := ["entrypoint.sh", "dashboard.sh", "host_agent_unix.sh", "run_unix.sh"]

/-- The working directory, as a partial map from filenames to byte contents;
`none` means the file does not exist. -/
def FS : Type := String → Option (List Nat)

/-- Overwrite (or create) one file of the working directory. -/
def FS.write (fs : FS) (name : String) (c : List Nat) : FS :=
  fun n => if n = name then some c else fs n

/-- One observable effect of a run of the script: an `os.path.exists` check
with its result, a whole-file read, a whole-file write, or a printed console
line (tagged with the filename the line reports on). -/
inductive Effect : Type where
  | checkExists : String → Bool → Effect
  | readFile : String → List Nat → Effect
  | writeFile : String → List Nat → Effect
  | consoleLine : String → String → Effect
deriving DecidableEq

/-- The filename an effect concerns. -/
def Effect.file : Effect → String
  | .checkExists n _ => n
  | .readFile n _ => n
  | .writeFile n _ => n
  | .consoleLine n _ => n

/-- One iteration of the loop of fix_lines.py (lines 5-18) on filename
`name`: check existence; if present, print the starting line, read the bytes,
replace CRLF with LF, write back and print the completion line; if absent,
print the skip line and leave the directory unchanged. Returns the directory
after the iteration and the ordered effects it performed. -/
def processFile (fs : FS) (name : String) : FS × List Effect :=
  match fs name with
  | some content =>
      (fs.write name (replaceCRLF content),
        [Effect.checkExists name true,
         Effect.consoleLine name ("Fixing " ++ name ++ "..."),
         Effect.readFile name content,
         Effect.writeFile name (replaceCRLF content),
         Effect.consoleLine name ("Fixed " ++ name)])
  | none =>
      (fs,
        [Effect.checkExists name false,
         Effect.consoleLine name ("Skipping " ++ name ++ " (not found)")])

/-- The whole run: the `for filename in files` loop, processing the names in
list order and concatenating their effects. -/
def runFix (fs : FS) : List String → FS × List Effect
  | [] => (fs, [])
  | n :: rest =>
      ((runFix (processFile fs n).1 rest).1,
       (processFile fs n).2 ++ (runFix (processFile fs n).1 rest).2)

/-- The per-file blocks of effects of a run, in processing order. -/
def traceBlocks (fs : FS) : List String → List (List Effect)
  | [] => []
  | n :: rest => (processFile fs n).2 :: traceBlocks (processFile fs n).1 rest

/-- The console lines among a list of effects, in order. -/
def consoleLines (es : List Effect) : List String :=
  es.filterMap fun e =>
    match e with
    | Effect.consoleLine _ s => some s
    | _ => none

/-- The console lines among a list of effects that report on file `name`. -/
def consoleLinesFor (name : String) (es : List Effect) : List String :=
  es.filterMap fun e =>
    match e with
    | Effect.consoleLine n s => if n = name then some s else none
    | _ => none

/-- The contents written by the write effects among a list of effects. -/
def writtenBytes (es : List Effect) : List (List Nat) :=
  es.filterMap fun e =>
    match e with
    | Effect.writeFile _ c => some c
    | _ => none

example : replaceCRLF [13, 10] = [10] := by decide
example : replaceCRLF [13, 13, 10] = [13, 10] := by decide
example : replaceCRLF [13, 10, 13, 10] = [10, 10] := by decide
example : replaceCRLF [65, 13, 66, 10] = [65, 13, 66, 10] := by decide
example : countCRLF [13, 10, 13, 10, 13] = 2 := by decide
example : hasCRCRLF [13, 13, 10] = true := by decide
example : hasCRCRLF [13, 10, 13] = false := by decide

/-- Each replaced pair shortens the buffer by exactly one byte. -/
theorem replaceCRLF_length_add (l : List Nat) :
    (replaceCRLF l).length + countCRLF l = l.length := by
  induction l using replaceCRLF.induct with
  | case1 => simp [replaceCRLF, countCRLF]
  | case2 b => simp [replaceCRLF, countCRLF]
  | case3 b b2 rest h ih =>
      simp only [replaceCRLF, countCRLF, if_pos h, List.length_cons]
      omega
  | case4 b b2 rest h ih =>
      simp only [replaceCRLF, countCRLF, if_neg h, List.length_cons]
      simp only [List.length_cons] at ih
      omega

/-- C1: the transform replaces every non-overlapping, left-to-right occurrence
of `0x0D 0x0A` with the single byte `0x0A` (continuing the scan after the
pair); a lone `0x0D` not followed by `0x0A` is copied unchanged; a lone
`0x0A` is copied unchanged; any other byte is copied unchanged in place; the
empty buffer maps to itself. -/
theorem crlf_substitution :
    (∀ rest : List Nat, replaceCRLF (13 :: 10 :: rest) = 10 :: replaceCRLF rest)
    ∧ (∀ rest : List Nat, rest.head? ≠ some 10 →
        replaceCRLF (13 :: rest) = 13 :: replaceCRLF rest)
    ∧ (∀ rest : List Nat, replaceCRLF (10 :: rest) = 10 :: replaceCRLF rest)
    ∧ (∀ (b : Nat) (rest : List Nat), b ≠ 13 →
        replaceCRLF (b :: rest) = b :: replaceCRLF rest)
    ∧ replaceCRLF [] = [] := by
  refine ⟨?_, ?_, ?_, ?_, rfl⟩
  · intro rest
    simp [replaceCRLF]
  · intro rest h
    cases rest with
    | nil => rfl
    | cons b2 r =>
        have hb2 : b2 ≠ 10 := by
          intro hc
          exact h (by simp [hc])
        simp only [replaceCRLF]
        rw [if_neg]
        intro hc
        exact hb2 hc.2
  · intro rest
    cases rest with
    | nil => rfl
    | cons b2 r =>
        simp only [replaceCRLF]
        rw [if_neg]
        intro hc
        exact absurd hc.1 (by decide)
  · intro b rest hb
    cases rest with
    | nil => rfl
    | cons b2 r =>
        simp only [replaceCRLF]
        rw [if_neg]
        intro hc
        exact hb hc.1

/-- Witness for `crlf_substitution` at concrete buffers. -/
theorem crlf_substitution_witness :
    replaceCRLF (13 :: 10 :: [65]) = 10 :: replaceCRLF [65]
    ∧ replaceCRLF (13 :: [65]) = 13 :: replaceCRLF [65]
    ∧ replaceCRLF (10 :: [65]) = 10 :: replaceCRLF [65]
    ∧ replaceCRLF (66 :: [65]) = 66 :: replaceCRLF [65] :=
  ⟨crlf_substitution.1 [65],
   crlf_substitution.2.1 [65] (by decide),
   crlf_substitution.2.2.1 [65],
   crlf_substitution.2.2.2.1 66 [65] (by decide)⟩

/-- A buffer without any CRLF pair is a fixpoint of the transform. -/
theorem replaceCRLF_eq_self_of_no_crlf (l : List Nat) (h : hasCRLF l = false) :
    replaceCRLF l = l := by
  induction l using replaceCRLF.induct with
  | case1 => rfl
  | case2 b => rfl
  | case3 b b2 rest h3 ih =>
      obtain ⟨rfl, rfl⟩ := h3
      simp [hasCRLF] at h
  | case4 b b2 rest h4 ih =>
      simp only [hasCRLF, Bool.or_eq_false_iff] at h
      simp only [replaceCRLF, if_neg h4, ih h.2]

/-- Dropping the first byte cannot create a `0x0D 0x0D 0x0A` occurrence. -/
theorem hasCRCRLF_tail (b : Nat) (l : List Nat) (h : hasCRCRLF (b :: l) = false) :
    hasCRCRLF l = false := by
  match l with
  | [] => rfl
  | [c] => rfl
  | c :: d :: s =>
      simp only [hasCRCRLF, Bool.or_eq_false_iff] at h
      exact h.2

/-- Prepending a byte other than `0x0D` to a CRLF-free buffer keeps it
CRLF-free. -/
theorem hasCRLF_cons_of_ne (b : Nat) (l : List Nat) (hb : b ≠ 13)
    (hl : hasCRLF l = false) : hasCRLF (b :: l) = false := by
  match l with
  | [] => rfl
  | c :: r => simp [hasCRLF, hb, hl]

/-- Prepending `0x0D` to a CRLF-free buffer whose first byte is not `0x0A`
keeps it CRLF-free. -/
theorem hasCRLF_cons_cr (l : List Nat) (hhead : l.head? ≠ some 10)
    (hl : hasCRLF l = false) : hasCRLF (13 :: l) = false := by
  match l with
  | [] => rfl
  | c :: r =>
      have hc : c ≠ 10 := by
        intro hc
        exact hhead (by simp [hc])
      simp [hasCRLF, hc, hl]

/-- When the first byte does not start a CRLF match, it is the first byte of
the output as well. -/
theorem replaceCRLF_head (b : Nat) (rest : List Nat)
    (h : ¬(b = 13 ∧ rest.head? = some 10)) :
    (replaceCRLF (b :: rest)).head? = some b := by
  match rest with
  | [] => rfl
  | b2 :: r =>
      have h2 : ¬(b = 13 ∧ b2 = 10) := by
        intro hc
        exact h ⟨hc.1, by simp [hc.2]⟩
      simp only [replaceCRLF, if_neg h2, List.head?_cons]

/-- The transform of a buffer containing no `0x0D 0x0D 0x0A` sequence
contains no CRLF pair. -/
theorem hasCRLF_replaceCRLF (l : List Nat) (h : hasCRCRLF l = false) :
    hasCRLF (replaceCRLF l) = false := by
  induction l using replaceCRLF.induct with
  | case1 => rfl
  | case2 b => rfl
  | case3 b b2 rest h3 ih =>
      obtain ⟨rfl, rfl⟩ := h3
      have htail : hasCRCRLF rest = false := hasCRCRLF_tail 10 rest (hasCRCRLF_tail 13 _ h)
      have hc : (13 : Nat) = 13 ∧ (10 : Nat) = 10 := ⟨rfl, rfl⟩
      simp only [replaceCRLF, if_pos hc]
      exact hasCRLF_cons_of_ne 10 _ (by decide) (ih htail)
  | case4 b b2 rest h4 ih =>
      have htail : hasCRCRLF (b2 :: rest) = false := hasCRCRLF_tail b _ h
      simp only [replaceCRLF, if_neg h4]
      by_cases hb : b = 13
      · subst hb
        have hb2 : b2 ≠ 10 := fun hc => h4 ⟨rfl, hc⟩
        have hnot : ¬(b2 = 13 ∧ rest.head? = some 10) := by
          rintro ⟨rfl, hr⟩
          match rest, hr with
          | 10 :: r, _ => simp [hasCRCRLF] at h
        have hhead : (replaceCRLF (b2 :: rest)).head? ≠ some 10 := by
          rw [replaceCRLF_head b2 rest hnot]
          simp [hb2]
        exact hasCRLF_cons_cr _ hhead (ih htail)
      · exact hasCRLF_cons_of_ne b _ hb (ih htail)

/-- C2 counterexample: on `b"\r\r\n"` one application of the transform yields
`b"\r\n"` and a second application yields `b"\n"`, so the transform is not
idempotent on every byte buffer. -/
theorem idempotence_counterexample :
    replaceCRLF (replaceCRLF [13, 13, 10]) ≠ replaceCRLF [13, 13, 10] := by
  decide

/-- C2 (amended): on every byte buffer containing no occurrence of the
three-byte sequence `0x0D 0x0D 0x0A`, applying the transform twice yields the
same result as applying it once. -/
theorem idempotent_without_crcrlf (C : List Nat) (h : hasCRCRLF C = false) :
    replaceCRLF (replaceCRLF C) = replaceCRLF C :=
  replaceCRLF_eq_self_of_no_crlf _ (hasCRLF_replaceCRLF C h)

/-- Witness for `idempotent_without_crcrlf` at a concrete buffer. -/
theorem idempotent_without_crcrlf_witness :
    hasCRCRLF [65, 13, 10, 13] = false
    ∧ replaceCRLF (replaceCRLF [65, 13, 10, 13]) = replaceCRLF [65, 13, 10, 13] :=
  ⟨by decide, idempotent_without_crcrlf [65, 13, 10, 13] (by decide)⟩

/-- C4: the transformed buffer is never longer than the input, and the length
difference is exactly the number of CRLF pairs the scan replaced. -/
theorem length_relationship (C : List Nat) :
    (replaceCRLF C).length ≤ C.length
    ∧ C.length - (replaceCRLF C).length = countCRLF C := by
  have h := replaceCRLF_length_add C
  omega

/-- C6: on the concrete bytes of `b"mixed\r\nand\nlone\r"` the transform
returns the bytes of `b"mixed\nand\nlone\r"`: the CRLF pair collapses to LF,
the lone LF is untouched, and the trailing lone CR stays in place. -/
theorem scenario_mixed_lone_cr :
    replaceCRLF [109, 105, 120, 101, 100, 13, 10, 97, 110, 100, 10, 108, 111, 110, 101, 13]
      = [109, 105, 120, 101, 100, 10, 97, 110, 100, 10, 108, 111, 110, 101, 13] := by
  decide

/-- C8: the transform preserves the number of `0x0A` bytes: each replaced
CRLF pair contributes its LF to the output, and all other bytes are copied. -/
theorem lf_count_preserved (C : List Nat) :
    (replaceCRLF C).count 10 = C.count 10 := by
  induction C using replaceCRLF.induct with
  | case1 => rfl
  | case2 b => rfl
  | case3 b b2 rest h ih =>
      obtain ⟨rfl, rfl⟩ := h
      simp [replaceCRLF, List.count_cons, ih]
  | case4 b b2 rest h ih =>
      simp only [replaceCRLF, if_neg h]
      simp [List.count_cons, ih]

/-- C9: the transform is the identity on every buffer containing no `0x0D`
byte; in particular it maps the empty buffer to itself, and a file already
using only LF line endings is rewritten byte-identically. -/
theorem identity_without_cr (C : List Nat) (h : 13 ∉ C) : replaceCRLF C = C := by
  induction C using replaceCRLF.induct with
  | case1 => rfl
  | case2 b => rfl
  | case3 b b2 rest h3 ih =>
      exact absurd (h3.1 ▸ List.mem_cons_self b (b2 :: rest)) h
  | case4 b b2 rest h4 ih =>
      have hrest : 13 ∉ b2 :: rest := fun hm => h (List.mem_cons_of_mem _ hm)
      simp only [replaceCRLF, if_neg h4, ih hrest]

/-- Witness for `identity_without_cr` at the empty buffer and at a concrete
LF-only buffer. -/
theorem identity_without_cr_witness :
    (13 ∉ ([] : List Nat) ∧ replaceCRLF [] = [])
    ∧ (13 ∉ [104, 105, 10] ∧ replaceCRLF [104, 105, 10] = [104, 105, 10]) :=
  ⟨⟨by decide, identity_without_cr [] (by decide)⟩,
   ⟨by decide, identity_without_cr [104, 105, 10] (by decide)⟩⟩

/-- One iteration never creates a file that was absent. -/
theorem processFile_preserves_absent (fs : FS) (n name : String)
    (h : fs name = none) : (processFile fs n).1 name = none := by
  cases hm : fs n with
  | none =>
      simp only [processFile, hm]
      exact h
  | some c =>
      simp only [processFile, hm, FS.write]
      by_cases he : name = n
      · rw [he] at h
        rw [h] at hm
        cases hm
      · simp [he, h]

/-- A file absent from the directory is still absent after the whole run: the
script never creates files. -/
theorem runFix_preserves_absent (fs : FS) (names : List String) (name : String)
    (h : fs name = none) : (runFix fs names).1 name = none := by
  induction names generalizing fs with
  | nil => exact h
  | cons n rest ih =>
      simp only [runFix]
      exact ih _ (processFile_preserves_absent fs n name h)

/-- C3: when a listed filename is absent from the working directory, the run
does not create the file, does not fail (the iteration still yields a result
state and trace), emits the skip notice naming the file, and continues with
the remaining entries exactly as if started on them directly. -/
theorem skip_on_absence (fs : FS) (name : String) (rest : List String)
    (h : fs name = none) :
    (runFix fs (name :: rest)).1 name = none
    ∧ (runFix fs (name :: rest)).2 =
        Effect.checkExists name false
          :: Effect.consoleLine name ("Skipping " ++ name ++ " (not found)")
          :: (runFix fs rest).2 := by
  have hp : processFile fs name =
      (fs, [Effect.checkExists name false,
            Effect.consoleLine name ("Skipping " ++ name ++ " (not found)")]) := by
    simp only [processFile, h]
  constructor
  · simp only [runFix, hp]
    exact runFix_preserves_absent fs rest name h
  · simp only [runFix, hp]
    rfl

/-- Witness for `skip_on_absence` on an empty working directory. -/
theorem skip_on_absence_witness :
    ((fun _ => none : FS) "dashboard.sh" = none)
    ∧ ((runFix (fun _ => none : FS) ("dashboard.sh" :: ["run_unix.sh"])).1 "dashboard.sh" = none
       ∧ (runFix (fun _ => none : FS) ("dashboard.sh" :: ["run_unix.sh"])).2 =
           Effect.checkExists "dashboard.sh" false
             :: Effect.consoleLine "dashboard.sh" ("Skipping " ++ "dashboard.sh" ++ " (not found)")
             :: (runFix (fun _ => none : FS) ["run_unix.sh"]).2) :=
  ⟨rfl, skip_on_absence (fun _ => none) "dashboard.sh" ["run_unix.sh"] rfl⟩

/-- C5 counterexample: with every listed file present (here with empty
contents), the run emits two console lines for the configured filename
`entrypoint.sh` — the starting line and the completion line — not exactly
one. -/
theorem console_single_line_counterexample :
    (consoleLinesFor "entrypoint.sh" (runFix (fun _ => some ([] : List Nat)) files).2).length = 2
    ∧ (consoleLinesFor "entrypoint.sh"
        (runFix (fun _ => some ([] : List Nat)) files).2).length ≠ 1 := by
  constructor <;> decide

/-- C5 (amended): the run processes the list head first and appends the rest
of the trace, and for each processed filename the iteration emits exactly two
console lines when the file exists (one announcing the fix is starting, one
that it completed) and exactly one console line when it is absent (the skip
notice). -/
theorem console_output_contract (fs : FS) (name : String) (rest : List String) :
    (runFix fs (name :: rest)).2 =
      (processFile fs name).2 ++ (runFix (processFile fs name).1 rest).2
    ∧ consoleLines (processFile fs name).2 =
        (match fs name with
         | some _ => ["Fixing " ++ name ++ "...", "Fixed " ++ name]
         | none => ["Skipping " ++ name ++ " (not found)"]) := by
  constructor
  · simp only [runFix]
  · cases hm : fs name with
    | some c => simp [processFile, hm, consoleLines]
    | none => simp [processFile, hm, consoleLines]

/-- Every effect of one iteration concerns the filename of that iteration. -/
theorem processFile_effects_file (fs : FS) (n : String) :
    ∀ e ∈ (processFile fs n).2, Effect.file e = n := by
  intro e he
  cases hm : fs n with
  | some c =>
      simp only [processFile, hm, List.mem_cons, List.not_mem_nil, or_false] at he
      rcases he with rfl | rfl | rfl | rfl | rfl <;> rfl
  | none =>
      simp only [processFile, hm, List.mem_cons, List.not_mem_nil, or_false] at he
      rcases he with rfl | rfl <;> rfl

/-- C7: the trace of a run is the concatenation, in list order, of one
contiguous block of effects per configured filename, and every effect in the
block of a filename (existence check, read, write, console line) concerns
that filename; hence all effects for an earlier list entry occur before any
effect for a later one, and each file is fully read and written before the
next is touched. -/
theorem files_processed_sequentially (fs : FS) (names : List String) :
    (runFix fs names).2 = (traceBlocks fs names).flatten
    ∧ List.Forall₂ (fun name block => ∀ e ∈ block, Effect.file e = name)
        names (traceBlocks fs names) := by
  induction names generalizing fs with
  | nil => exact ⟨rfl, List.Forall₂.nil⟩
  | cons n rest ih =>
      constructor
      · simp only [runFix, traceBlocks, List.flatten_cons]
        rw [(ih (processFile fs n).1).1]
      · exact List.Forall₂.cons (processFile_effects_file fs n) (ih (processFile fs n).1).2

/-- C10: the transform is deterministic and depends only on the bytes read:
whenever two iterations — on any two directory states and any two filenames —
read the same byte content, each writes back exactly the transform of that
content, so the written bytes coincide; no environment, filename, or
prior-iteration state influences the transformed content. -/
theorem transform_deterministic (fs₁ fs₂ : FS) (n₁ n₂ : String) (c : List Nat)
    (h₁ : fs₁ n₁ = some c) (h₂ : fs₂ n₂ = some c) :
    writtenBytes (processFile fs₁ n₁).2 = [replaceCRLF c]
    ∧ writtenBytes (processFile fs₂ n₂).2 = [replaceCRLF c]
    ∧ writtenBytes (processFile fs₁ n₁).2 = writtenBytes (processFile fs₂ n₂).2 := by
  refine ⟨?_, ?_, ?_⟩ <;> simp [processFile, h₁, h₂, writtenBytes]

/-- Witness for `transform_deterministic`: two different directory states and
filenames holding the same bytes yield the same written content. -/
theorem transform_deterministic_witness :
    ((fun _ => some [13, 10] : FS) "entrypoint.sh" = some [13, 10])
    ∧ ((fun n => if n = "run_unix.sh" then some [13, 10] else none : FS) "run_unix.sh"
        = some [13, 10])
    ∧ (writtenBytes (processFile (fun _ => some [13, 10]) "entrypoint.sh").2
         = [replaceCRLF [13, 10]]
       ∧ writtenBytes
           (processFile (fun n => if n = "run_unix.sh" then some [13, 10] else none)
             "run_unix.sh").2 = [replaceCRLF [13, 10]]
       ∧ writtenBytes (processFile (fun _ => some [13, 10]) "entrypoint.sh").2
           = writtenBytes
               (processFile (fun n => if n = "run_unix.sh" then some [13, 10] else none)
                 "run_unix.sh").2) :=
  ⟨rfl, by simp,
   transform_deterministic (fun _ => some [13, 10])
     (fun n => if n = "run_unix.sh" then some [13, 10] else none)
     "entrypoint.sh" "run_unix.sh" [13, 10] rfl (by simp)⟩
